import Mathlib

/-!
Shallow embedding of the townsag/clarity repository (Go):
broker/broker_server.go (BrokerServer + ReplicationModule) and
appserver/appserver.go (AppServer), together with theorems settling the
frozen claims about the natural-language specification.

Conventions of the embedding:
* Go `int` is modelled as `Int` (the code uses the sentinels `-1` for
  `commitIndex`, `prevLogIndex`, `prevLogTerm`, `ConflictTerm` and for the
  `Submit` rejection).
* Go slices become `List`; `log[i]` becomes a guarded lookup.  Go panics on a
  negative index; every theorem about `AppendEntries` therefore carries the
  protocol precondition `-1 ≤ prevLogIndex` (a leader always sends
  `prevLogIndex = nextIndex - 1` with `nextIndex ≥ 0`), under which the
  embedding and the Go code agree everywhere.
* Channel sends (`newCommitReadyChan`, `triggerAEChan`) become a `Bool`
  "signal issued" component of the result.
* The opaque `any` CRDT operation payloads are modelled as `String`.
-/

namespace Clarity

/-- Broker server states, from `broker_server.go` (`ServerState`). -/
inductive ServerState where
  | Follower
  | Candidate
  | Leader
  | Dead
deriving DecidableEq

/-- Log entries, from `broker_server.go` (`LogEntry`): an opaque CRDT
operation, a term and a document name. -/
structure LogEntry where
  crdtOperation : String
  term : Int
  document : String
deriving DecidableEq

/-- Commit-stream entries, from `broker_server.go` (`CommitEntry`). -/
structure CommitEntry where
  crdtOperation : String
  index : Int
  term : Int
deriving DecidableEq

/-- The consensus state of one broker that the `ReplicationModule` reads and
writes under `mu2`: the broker's `state`, the election module's `term` and
`votedFor`, and the replication module's `log`, `commitIndex`, `lastApplied`
and `committedLog`.  `timerReset` records the observable effect of
`resetElectionTimer`. -/
structure BrokerRM where
  id : Int
  state : ServerState
  term : Int
  votedFor : Int
  log : List LogEntry
  commitIndex : Int
  lastApplied : Int
  committedLog : List LogEntry
  timerReset : Bool
deriving DecidableEq

/-- Modelled from the spec: the Election Module (election source file is not
in the repository snapshot; only its callers are).  `becomeFollower(newTerm)`
per spec section 4.2: set `currentTerm = newTerm`, `state = Follower`,
`votedFor = none` (sentinel `-1`), reset the election timer. -/
def becomeFollower (s : BrokerRM) (newTerm : Int) : BrokerRM :=
  { s with term := newTerm, state := ServerState.Follower, votedFor := -1,
           timerReset := true }

/-- Modelled from the spec: the Election Module's `resetElectionTimer`
(election source file is not in the repository snapshot); its only effect on
the modelled state is restarting the election timer. -/
def resetElectionTimer (s : BrokerRM) : BrokerRM :=
  { s with timerReset := true }

/-- Term of the log entry at position `i : Nat`, or `-1` when out of range
(every use in the embedding is guarded so that the default is never read). -/
def termAtNat (l : List LogEntry) (i : Nat) : Int :=
  match l.get? i with
  | some e => e.term
  | none => -1

/-- Term of the log entry at an `Int` position (Go `rm.log[i].Term`). -/
def termAtInt (l : List LogEntry) (i : Int) : Int :=
  termAtNat l i.toNat

/-- The follower consistency check of `AppendEntries`
(`broker_server.go:591`): `args.PrevLogIndex == -1 || (args.PrevLogIndex <
len(rm.log) && args.PrevLogTerm == rm.log[args.PrevLogIndex].Term)`. -/
def consistencyOK (l : List LogEntry) (prevLogIndex prevLogTerm : Int) : Bool :=
  prevLogIndex = -1 ∨
    (prevLogIndex < (l.length : Int) ∧ prevLogTerm = termAtInt l prevLogIndex)

/-- Number of initial entries of `entries` whose terms match the follower's
log starting at position `li`: the number of iterations of the scan loop of
`AppendEntries` (`broker_server.go:600-612`), which advances while both
indices are in range and the terms agree. -/
def matchLen (l : List LogEntry) (li : Nat) (entries : List LogEntry) : Nat :=
  match entries with
  | [] => 0
  | e :: rest =>
    match l.get? li with
    | none => 0
    | some x => if x.term = e.term then matchLen l (li + 1) rest + 1 else 0

/-- The log-merge step of an accepted `AppendEntries`
(`broker_server.go:596-618`): after the scan loop stops with
`newEntriesIndex = matchLen` and `logInsertIndex = insertStart + matchLen`,
if entries remain the Go code runs
`rm.log = append(rm.log[:logInsertIndex], args.Entries[newEntriesIndex:]...)`;
otherwise the log is untouched. -/
def mergeLog (l : List LogEntry) (insertStart : Nat) (entries : List LogEntry) :
    List LogEntry :=
  let k := matchLen l insertStart entries
  if k < entries.length then l.take (insertStart + k) ++ entries.drop k
  else l

/-- The backward conflict scan of a rejected `AppendEntries`
(`broker_server.go:639-645`): `for i = prevLogIndex - 1; i >= 0; i-- { if
rm.log[i].Term != conflictTerm { break } }; conflictIndex = i + 1`.  The
argument is `i + 1`, so `conflictIndexScan l ct p` runs the loop from
`i = p - 1` and returns the final `i + 1`. -/
def conflictIndexScan (l : List LogEntry) (ct : Int) : Nat → Nat
  | 0 => 0
  | n + 1 => if termAtNat l n ≠ ct then n + 1 else conflictIndexScan l ct n

/-- Arguments of the `AppendEntries` RPC (`AppendEntriesArgs`). -/
structure AEArgs where
  term : Int
  leaderId : Int
  prevLogIndex : Int
  prevLogTerm : Int
  entries : List LogEntry
  leaderCommit : Int
deriving DecidableEq

/-- Reply of the `AppendEntries` RPC (`AppendEntriesReply`).  Fields the Go
handler never assigns keep their Go zero value `0`. -/
structure AEReply where
  term : Int
  success : Bool
  id : Int
  conflictIndex : Int
  conflictTerm : Int
deriving DecidableEq

/-- The state update of the accept branch of `AppendEntries`
(`broker_server.go:596-628`): merge the leader's entries into the log, then,
if `args.LeaderCommit > rm.commitIndex`, set
`rm.commitIndex = min(args.LeaderCommit, len(rm.log)-1)` (length of the log
after the merge) and signal `newCommitReadyChan` (the `Bool`). -/
def aeAccept (s : BrokerRM) (args : AEArgs) : BrokerRM × Bool :=
  let newLog := mergeLog s.log (args.prevLogIndex + 1).toNat args.entries
  if args.leaderCommit > s.commitIndex then
    ({ s with log := newLog,
              commitIndex := min args.leaderCommit ((newLog.length : Int) - 1) },
     true)
  else
    ({ s with log := newLog }, false)

/-- The fast-backup hints of the reject branch of `AppendEntries`
(`broker_server.go:630-647`), returned as `(conflictIndex, conflictTerm)`:
if `prevLogIndex >= len(log)` then `(len(log), -1)`, else the conflict term
is `log[prevLogIndex].Term` and the conflict index comes from the backward
scan. -/
def aeConflict (l : List LogEntry) (prevLogIndex : Int) : Int × Int :=
  if (l.length : Int) ≤ prevLogIndex then ((l.length : Int), -1)
  else
    let ct := termAtInt l prevLogIndex
    ((conflictIndexScan l ct prevLogIndex.toNat : Int), ct)

/-- The follower-side `AppendEntries` RPC handler
(`ReplicationModule.AppendEntries`, `broker_server.go:570-654`), as a pure
function from the broker's consensus state and the RPC arguments to the new
state, the reply, and whether `newCommitReadyChan` was signalled. -/
def AppendEntries (s : BrokerRM) (args : AEArgs) : BrokerRM × AEReply × Bool :=
  let s1 := if args.term > s.term then becomeFollower s args.term else s
  if args.term = s1.term then
    let s2 := resetElectionTimer
      (if s1.state ≠ ServerState.Follower then becomeFollower s1 args.term else s1)
    if consistencyOK s2.log args.prevLogIndex args.prevLogTerm then
      let r := aeAccept s2 args
      (r.1, ⟨r.1.term, true, r.1.id, 0, 0⟩, r.2)
    else
      let c := aeConflict s2.log args.prevLogIndex
      (s2, ⟨s2.term, false, s2.id, c.1, c.2⟩, false)
  else
    (s1, ⟨s1.term, false, s1.id, 0, 0⟩, false)

/-- Client-edit submission (`ReplicationModule.Submit`,
`broker_server.go:660-674`): on a Leader, append
`LogEntry{CRDTOperation: command, Term: em.term, Document: document}`, signal
`triggerAEChan` and return the index assigned to the entry (the log length
before the append); otherwise return the rejection sentinel `-1`. -/
def Submit (s : BrokerRM) (document : String) (command : String) :
    BrokerRM × Int × Bool :=
  if s.state = ServerState.Leader then
    ({ s with log := s.log ++ [⟨command, s.term, document⟩] },
     (s.log.length : Int), true)
  else
    (s, -1, false)

/-- Go slice `l[lo:hi]` on the log, for in-range `Int` bounds. -/
def sliceII (l : List LogEntry) (lo hi : Int) : List LogEntry :=
  (l.take hi.toNat).drop lo.toNat

/-- One iteration of the commit-stream worker
(`ReplicationModule.commitChanSender`, `broker_server.go:509-543`), run when
a `newCommitReadyChan` signal is consumed: capture `savedTerm` and
`savedLastApplied`; if `commitIndex == 0` deliver
`log[lastApplied : commitIndex+1]`, else if `commitIndex > lastApplied`
deliver `log[lastApplied+1 : commitIndex+1]`, setting
`lastApplied = commitIndex` in both cases; append the delivered entries to
`committedLog` and emit each as
`CommitEntry{operation, Index: savedLastApplied + i + 1, Term: savedTerm}`
(`i` the 0-based position in the delivered batch). -/
def commitChanSenderStep (s : BrokerRM) : BrokerRM × List CommitEntry :=
  let savedTerm := s.term
  let savedLastApplied := s.lastApplied
  let d :=
    if s.commitIndex = 0 then
      (sliceII s.log s.lastApplied (s.commitIndex + 1), s.commitIndex)
    else if s.commitIndex > s.lastApplied then
      (sliceII s.log (s.lastApplied + 1) (s.commitIndex + 1), s.commitIndex)
    else
      ([], s.lastApplied)
  let emitted := d.1.enum.map
    (fun p => CommitEntry.mk p.2.crdtOperation (savedLastApplied + (p.1 : Int) + 1) savedTerm)
  ({ s with lastApplied := d.2, committedLog := s.committedLog ++ d.1 }, emitted)

/-- A freshly constructed replication module (`NewRM`,
`broker_server.go:360-382`, hosted by `NewBrokerServer` with the given
initial state): `commitIndex` is set to `-1`; `lastApplied`, the election
term and `votedFor` keep their Go zero values `0`; both logs start empty. -/
def initRM (id : Int) (st : ServerState) : BrokerRM :=
  { id := id, state := st, term := 0, votedFor := 0, log := [],
    commitIndex := -1, lastApplied := 0, committedLog := [], timerReset := false }

/-- Count of brokers ready at index `i` in the leader's commit scan
(`broker_server.go:450-456`): `matches` starts at `1` (the leader itself)
and is incremented for every peer whose `matchIndex` is at least `i`. -/
def countMatches (peerIds : List Int) (matchIndex : Int → Int) (i : Int) : Nat :=
  1 + (peerIds.filter (fun p => i ≤ matchIndex p)).length

/-- The leader's commit-advance scan after a successful replication reply
(`broker_server.go:446-466`): for `i` from `commitIndex + 1` to
`len(log) - 1`, if `log[i].Term == em.term` and
`matches == len(rm.peerIds)`, set `commitIndex = i`.  Returns the final
`commitIndex`. -/
def commitAdvance (l : List LogEntry) (term : Int) (ci0 : Int)
    (peerIds : List Int) (matchIndex : Int → Int) : Int :=
  (List.range l.length).foldl
    (fun (ci : Int) (i : Nat) =>
      if ci0 + 1 ≤ (i : Int) then
        if termAtNat l i = term then
          if countMatches peerIds matchIndex (i : Int) = peerIds.length then
            (i : Int)
          else ci
        else ci
      else ci)
    ci0

/-! Helper lemmas about the embedded broker operations. -/

@[simp] lemma becomeFollower_log (s : BrokerRM) (t : Int) :
    (becomeFollower s t).log = s.log := rfl

@[simp] lemma becomeFollower_term (s : BrokerRM) (t : Int) :
    (becomeFollower s t).term = t := rfl

@[simp] lemma becomeFollower_id (s : BrokerRM) (t : Int) :
    (becomeFollower s t).id = s.id := rfl

@[simp] lemma becomeFollower_state (s : BrokerRM) (t : Int) :
    (becomeFollower s t).state = ServerState.Follower := rfl

@[simp] lemma becomeFollower_commitIndex (s : BrokerRM) (t : Int) :
    (becomeFollower s t).commitIndex = s.commitIndex := rfl

@[simp] lemma resetElectionTimer_log (s : BrokerRM) :
    (resetElectionTimer s).log = s.log := rfl

@[simp] lemma resetElectionTimer_term (s : BrokerRM) :
    (resetElectionTimer s).term = s.term := rfl

@[simp] lemma resetElectionTimer_id (s : BrokerRM) :
    (resetElectionTimer s).id = s.id := rfl

@[simp] lemma resetElectionTimer_commitIndex (s : BrokerRM) :
    (resetElectionTimer s).commitIndex = s.commitIndex := rfl

/-- When the leader's term is stale, `AppendEntries` changes nothing and
replies `success = false` with the follower's current term. -/
lemma AE_of_lt (s : BrokerRM) (args : AEArgs) (h : args.term < s.term) :
    AppendEntries s args = (s, ⟨s.term, false, s.id, 0, 0⟩, false) := by
  have h1 : ¬ args.term > s.term := by omega
  have h2 : ¬ args.term = s.term := by omega
  simp [AppendEntries, h1, h2]

/-- The state reached by `AppendEntries` after term adoption and the
follower/timer bookkeeping, before the consistency check. -/
def aeEnter (s : BrokerRM) (args : AEArgs) : BrokerRM :=
  let s1 := if args.term > s.term then becomeFollower s args.term else s
  resetElectionTimer
    (if s1.state ≠ ServerState.Follower then becomeFollower s1 args.term else s1)

@[simp] lemma aeEnter_log (s : BrokerRM) (args : AEArgs) :
    (aeEnter s args).log = s.log := by
  unfold aeEnter
  dsimp only
  split <;> split <;> rfl

@[simp] lemma aeEnter_id (s : BrokerRM) (args : AEArgs) :
    (aeEnter s args).id = s.id := by
  unfold aeEnter
  dsimp only
  split <;> split <;> rfl

@[simp] lemma aeEnter_commitIndex (s : BrokerRM) (args : AEArgs) :
    (aeEnter s args).commitIndex = s.commitIndex := by
  unfold aeEnter
  dsimp only
  split <;> split <;> rfl

lemma aeEnter_term (s : BrokerRM) (args : AEArgs) (h : s.term ≤ args.term) :
    (aeEnter s args).term = args.term := by
  unfold aeEnter
  dsimp only
  rcases eq_or_lt_of_le h with he | hl
  · rw [if_neg (by omega : ¬ args.term > s.term)]
    split <;> simp [he]
  · rw [if_pos (by omega : args.term > s.term)]
    split <;> simp

@[simp] lemma aeAccept_fst_term (s : BrokerRM) (args : AEArgs) :
    (aeAccept s args).1.term = s.term := by
  unfold aeAccept
  dsimp only
  split <;> rfl

@[simp] lemma aeAccept_fst_id (s : BrokerRM) (args : AEArgs) :
    (aeAccept s args).1.id = s.id := by
  unfold aeAccept
  dsimp only
  split <;> rfl

@[simp] lemma aeAccept_fst_log (s : BrokerRM) (args : AEArgs) :
    (aeAccept s args).1.log =
      mergeLog s.log (args.prevLogIndex + 1).toNat args.entries := by
  unfold aeAccept
  dsimp only
  split <;> rfl

/-- Unfolding of `AppendEntries` in the non-stale accepting case. -/
lemma AE_of_ge_accept (s : BrokerRM) (args : AEArgs) (h : s.term ≤ args.term)
    (hc : consistencyOK s.log args.prevLogIndex args.prevLogTerm = true) :
    AppendEntries s args =
      ((aeAccept (aeEnter s args) args).1,
       ⟨args.term, true, s.id, 0, 0⟩,
       (aeAccept (aeEnter s args) args).2) := by
  rcases eq_or_lt_of_le h with he | hl
  · have h1 : ¬ args.term > s.term := by omega
    by_cases hs : s.state = ServerState.Follower <;>
      simp [AppendEntries, aeEnter, h1, ← he, hs, hc, aeEnter_term s args h]
  · have h1 : args.term > s.term := by omega
    simp [AppendEntries, aeEnter, h1, hc, aeEnter_term s args h]

/-- Unfolding of `AppendEntries` in the non-stale rejecting case. -/
lemma AE_of_ge_reject (s : BrokerRM) (args : AEArgs) (h : s.term ≤ args.term)
    (hc : consistencyOK s.log args.prevLogIndex args.prevLogTerm = false) :
    AppendEntries s args =
      (aeEnter s args,
       ⟨args.term, false, s.id, (aeConflict s.log args.prevLogIndex).1,
        (aeConflict s.log args.prevLogIndex).2⟩, false) := by
  rcases eq_or_lt_of_le h with he | hl
  · have h1 : ¬ args.term > s.term := by omega
    by_cases hs : s.state = ServerState.Follower <;>
      simp [AppendEntries, aeEnter, h1, ← he, hs, hc, aeEnter_term s args h]
  · have h1 : args.term > s.term := by omega
    simp [AppendEntries, aeEnter, h1, hc, aeEnter_term s args h]

lemma consistencyOK_iff (l : List LogEntry) (pli plt : Int) :
    consistencyOK l pli plt = true ↔
      (pli = -1 ∨ (pli < (l.length : Int) ∧ plt = termAtInt l pli)) := by
  simp [consistencyOK]

/-! Concrete fixtures used by witnesses and counterexamples. -/

/-- A term-1 log entry. -/
def entA : LogEntry := ⟨"op0", 1, "doc"⟩

/-- Another term-1 log entry. -/
def entB : LogEntry := ⟨"op1", 1, "doc"⟩

/-- A follower in term 1 holding the two-entry log `[entA, entB]`. -/
def follower2 : BrokerRM :=
  { id := 1, state := ServerState.Follower, term := 1, votedFor := -1,
    log := [entA, entB], commitIndex := -1, lastApplied := 0,
    committedLog := [], timerReset := false }

/-! Claim theorems. -/

/-- C1: a follower replies `success = true` to `AppendEntries` iff
`args.term` equals its current term after adopting a higher `args.term`
(that is, `args.term = max currentTerm args.term`) and the consistency check
passes (`prevLogIndex = -1`, or `prevLogIndex < len(log)` with
`log[prevLogIndex].term = prevLogTerm`); a stale `args.term < currentTerm`
yields `success = false` with `reply.term = currentTerm`. -/
theorem appendEntries_success_iff (s : BrokerRM) (args : AEArgs)
    (hp : -1 ≤ args.prevLogIndex) :
    ((AppendEntries s args).2.1.success = true ↔
      (args.term = max s.term args.term ∧
        (args.prevLogIndex = -1 ∨
          (args.prevLogIndex < (s.log.length : Int) ∧
            termAtInt s.log args.prevLogIndex = args.prevLogTerm)))) ∧
    (args.term < s.term →
      (AppendEntries s args).2.1.success = false ∧
      (AppendEntries s args).2.1.term = s.term) := by
  have hbr := consistencyOK_iff s.log args.prevLogIndex args.prevLogTerm
  constructor
  · rcases le_or_lt s.term args.term with h | h
    · have hmax : args.term = max s.term args.term := (max_eq_right h).symm
      by_cases hc : consistencyOK s.log args.prevLogIndex args.prevLogTerm = true
      · rw [AE_of_ge_accept s args h hc]
        have hR := hbr.mp hc
        refine ⟨fun _ => ⟨hmax, ?_⟩, fun _ => rfl⟩
        rcases hR with h0 | ⟨h1, h2⟩
        · exact Or.inl h0
        · exact Or.inr ⟨h1, h2.symm⟩
      · have hc' : consistencyOK s.log args.prevLogIndex args.prevLogTerm = false := by
          simpa using hc
        rw [AE_of_ge_reject s args h hc']
        simp only [Bool.false_eq_true, false_iff, not_and]
        intro _ hd
        apply hc
        apply hbr.mpr
        rcases hd with h0 | ⟨h1, h2⟩
        · exact Or.inl h0
        · exact Or.inr ⟨h1, h2.symm⟩
    · rw [AE_of_lt s args h]
      simp only [Bool.false_eq_true, false_iff, not_and]
      intro hmax
      exfalso
      have : max s.term args.term = s.term := max_eq_left h.le
      omega
  · intro h
    rw [AE_of_lt s args h]
    exact ⟨rfl, rfl⟩

/-- C1 witness: the follower `follower2` (term 1) accepts a heartbeat with
`prevLogIndex = -1` even though its log is nonempty, and rejects a stale
term-0 request with `reply.term = 1`. -/
theorem appendEntries_success_iff_witness :
    (AppendEntries follower2 ⟨1, 0, -1, -1, [], -1⟩).2.1.success = true ∧
    (AppendEntries follower2 ⟨0, 0, -1, -1, [], -1⟩).2.1.success = false ∧
    (AppendEntries follower2 ⟨0, 0, -1, -1, [], -1⟩).2.1.term = 1 := by
  refine ⟨?_, ?_, ?_⟩
  · exact (appendEntries_success_iff follower2 ⟨1, 0, -1, -1, [], -1⟩
      (by decide)).1.mpr (by decide)
  · exact ((appendEntries_success_iff follower2 ⟨0, 0, -1, -1, [], -1⟩
      (by decide)).2 (by decide)).1
  · exact ((appendEntries_success_iff follower2 ⟨0, 0, -1, -1, [], -1⟩
      (by decide)).2 (by decide)).2

/-- A broker state on the first-commit edge: one-entry log, `commitIndex = 0`
and `lastApplied = 0`, term 1. -/
def firstCommitState : BrokerRM :=
  { id := 1, state := ServerState.Follower, term := 1, votedFor := -1,
    log := [entA], commitIndex := 0, lastApplied := 0,
    committedLog := [], timerReset := true }

/-- C2: on the first-commit edge (`commitIndex = 0`, `lastApplied = 0`) the
commit-stream worker does deliver exactly `log[0..0]` and set
`lastApplied = 0`, but it emits the entry with `CommitEntry.index = 1`
(`savedLastApplied + i + 1` at `i = 0`), not `index = 0` as the claim
states. -/
theorem commitChanSender_first_commit_emits_index_one :
    (commitChanSenderStep firstCommitState).1.committedLog = [entA] ∧
    (commitChanSenderStep firstCommitState).1.lastApplied = 0 ∧
    (commitChanSenderStep firstCommitState).2 =
      [⟨"op0", 1, 1⟩] ∧
    (commitChanSenderStep firstCommitState).2.map CommitEntry.index ≠ [0] := by
  decide

/-- The follower state after receiving `[entA, entB]` with
`leaderCommit = 0` from a term-1 leader. -/
def c3AfterFirstAE : BrokerRM :=
  (AppendEntries (initRM 1 ServerState.Follower) ⟨1, 0, -1, -1, [entA, entB], 0⟩).1

/-- The same follower after the commit-stream worker ran once and the leader
then advanced `leaderCommit` to 1. -/
def c3AfterSecondAE : BrokerRM :=
  (AppendEntries (commitChanSenderStep c3AfterFirstAE).1 ⟨1, 0, 1, 1, [], 1⟩).1

/-- C3: the monotonic-commit invariant fails on the code.  A freshly
constructed replication module has `lastApplied = 0 > commitIndex = -1`
(violating `lastApplied ≤ commitIndex`), and on the reachable trace where a
follower's `commitIndex` advances `-1 → 0 → 1` the commit stream emits
`CommitEntry.index = 1` twice (first for `log[0]`, then for `log[1]`), so
the emitted index stream is not strictly increasing. -/
theorem commit_stream_emits_duplicate_index :
    (initRM 1 ServerState.Follower).commitIndex <
      (initRM 1 ServerState.Follower).lastApplied ∧
    c3AfterFirstAE.commitIndex = 0 ∧
    (commitChanSenderStep c3AfterFirstAE).2.map CommitEntry.index = [1] ∧
    c3AfterSecondAE.commitIndex = 1 ∧
    (commitChanSenderStep c3AfterSecondAE).2.map CommitEntry.index = [1] := by
  decide

/-- Match map for the C4 counterexample in which every peer has replicated
index 0. -/
def matchAll : Int → Int := fun p => if p = 1 then 0 else if p = 2 then 0 else -1

/-- Match map for the C4 counterexample in which only peer 1 has replicated
index 0. -/
def matchOne : Int → Int := fun p => if p = 1 then 0 else -1

/-- C4: the leader's commit threshold is not the all-peers rule.  With peers
`[1, 2]` and a one-entry term-1 log, the scan leaves `commitIndex = -1`
when both peers have `matchIndex ≥ 0` (the self-inclusive count `3` differs
from `len(peerIds) = 2`), yet sets `commitIndex = 0` when only peer 1
matches — the code commits exactly when all but one peer match, not when
all peers match. -/
theorem commitAdvance_not_all_peers_rule :
    commitAdvance [entA] 1 (-1) [1, 2] matchAll = -1 ∧
    (∀ p ∈ [(1 : Int), 2], (0 : Int) ≤ matchAll p) ∧
    commitAdvance [entA] 1 (-1) [1, 2] matchOne = 0 ∧
    ¬ (0 : Int) ≤ matchOne 2 := by
  decide

/-- C7: `Submit` on a non-Leader returns the rejection sentinel `-1` and
leaves the whole state (in particular the log) unchanged; on a Leader it
appends exactly one `LogEntry` with the current term, the given document and
operation, and returns the log length before the append. -/
theorem submit_leader_appends_follower_rejects (s : BrokerRM)
    (document command : String) :
    (s.state ≠ ServerState.Leader →
      Submit s document command = (s, -1, false)) ∧
    (s.state = ServerState.Leader →
      Submit s document command =
        ({ s with log := s.log ++ [⟨command, s.term, document⟩] },
         (s.log.length : Int), true)) := by
  constructor <;> intro h <;> simp [Submit, h]

/-- C7 witness: a fresh Leader assigns index 0 and stores the entry with its
current term; a fresh Follower replies `-1` and keeps its state. -/
theorem submit_leader_appends_follower_rejects_witness :
    Submit (initRM 1 ServerState.Leader) "doc" "op" =
      ({ initRM 1 ServerState.Leader with log := [⟨"op", 0, "doc"⟩] }, 0, true) ∧
    Submit (initRM 1 ServerState.Follower) "doc" "op" =
      (initRM 1 ServerState.Follower, -1, false) := by
  constructor
  · exact (submit_leader_appends_follower_rejects
      (initRM 1 ServerState.Leader) "doc" "op").2 rfl
  · exact (submit_leader_appends_follower_rejects
      (initRM 1 ServerState.Follower) "doc" "op").1 (by decide)

lemma matchLen_of_contained (l es : List LogEntry) (li : Nat)
    (h : ∀ k : Nat, k < es.length → li + k < l.length ∧
      termAtNat l (li + k) = termAtNat es k) :
    matchLen l li es = es.length := by
  induction es generalizing li with
  | nil => rfl
  | cons e rest ih =>
    obtain ⟨hlt, hterm⟩ := h 0 (by simp)
    rw [Nat.add_zero] at hlt hterm
    have hget : l.get? li = some (l.get ⟨li, hlt⟩) := List.get?_eq_get hlt
    have hx : (l.get ⟨li, hlt⟩).term = e.term := by
      have h1 : termAtNat l li = e.term := by rw [hterm]; rfl
      rw [termAtNat, hget] at h1
      exact h1
    have harg : ∀ k : Nat, k < rest.length → (li + 1) + k < l.length ∧
        termAtNat l ((li + 1) + k) = termAtNat rest k := by
      intro k hk
      have h2 := h (k + 1) (by simpa using Nat.succ_lt_succ hk)
      have e1 : li + (k + 1) = (li + 1) + k := by omega
      rw [e1] at h2
      exact h2
    simp only [matchLen, hget, hx, if_true, List.length_cons]
    rw [ih (li + 1) harg]

/-- C6: an accepted `AppendEntries` whose `entries` slice is fully contained
in the follower's log at the positions following `prevLogIndex` (terms match
at every overlapped index) leaves the follower's log unchanged: the scan
loop consumes every entry, so neither truncation nor append occurs. -/
theorem appendEntries_overlap_noop (s : BrokerRM) (args : AEArgs)
    (hp : -1 ≤ args.prevLogIndex)
    (hterm : s.term ≤ args.term)
    (hcons : consistencyOK s.log args.prevLogIndex args.prevLogTerm = true)
    (hcontained : ∀ k : Nat, k < args.entries.length →
      (args.prevLogIndex + 1).toNat + k < s.log.length ∧
      termAtNat s.log ((args.prevLogIndex + 1).toNat + k) =
        termAtNat args.entries k) :
    (AppendEntries s args).2.1.success = true ∧
    (AppendEntries s args).1.log = s.log := by
  rw [AE_of_ge_accept s args hterm hcons]
  refine ⟨rfl, ?_⟩
  show (aeAccept (aeEnter s args) args).1.log = s.log
  rw [aeAccept_fst_log, aeEnter_log]
  unfold mergeLog
  rw [matchLen_of_contained _ _ _ hcontained]
  simp

/-- C6 witness: `follower2` already holds `[entA, entB]`; an `AppendEntries`
re-sending `[entA, entB]` from `prevLogIndex = -1` is accepted and leaves
the log exactly `[entA, entB]`. -/
theorem appendEntries_overlap_noop_witness :
    (AppendEntries follower2 ⟨1, 0, -1, -1, [entA, entB], -1⟩).2.1.success = true ∧
    (AppendEntries follower2 ⟨1, 0, -1, -1, [entA, entB], -1⟩).1.log =
      follower2.log := by
  exact appendEntries_overlap_noop follower2 ⟨1, 0, -1, -1, [entA, entB], -1⟩
    (by decide) (by decide) (by decide) (by decide)

lemma conflictIndexScan_le (l : List LogEntry) (ct : Int) (n : Nat) :
    conflictIndexScan l ct n ≤ n := by
  induction n with
  | zero => exact Nat.le_refl 0
  | succ m ih =>
    rw [conflictIndexScan]
    split
    · exact Nat.le_refl _
    · exact Nat.le_trans ih (by omega)

lemma conflictIndexScan_run (l : List LogEntry) (ct : Int) (n : Nat) :
    ∀ j : Nat, conflictIndexScan l ct n ≤ j → j < n → termAtNat l j = ct := by
  induction n with
  | zero => intro j _ h2; omega
  | succ m ih =>
    intro j h1 h2
    rw [conflictIndexScan] at h1
    by_cases hm : termAtNat l m ≠ ct
    · rw [if_pos hm] at h1
      omega
    · rw [if_neg hm] at h1
      push_neg at hm
      rcases Nat.lt_succ_iff_lt_or_eq.mp h2 with h3 | h3
      · exact ih j h1 h3
      · rw [h3]
        exact hm

lemma conflictIndexScan_boundary (l : List LogEntry) (ct : Int) (n : Nat) :
    conflictIndexScan l ct n = 0 ∨
      termAtNat l (conflictIndexScan l ct n - 1) ≠ ct := by
  induction n with
  | zero => exact Or.inl rfl
  | succ m ih =>
    rw [conflictIndexScan]
    split
    · right
      simpa using ‹termAtNat l m ≠ ct›
    · exact ih

lemma aeConflict_of_ge (l : List LogEntry) (pli : Int)
    (h : (l.length : Int) ≤ pli) :
    aeConflict l pli = ((l.length : Int), -1) := by
  unfold aeConflict
  rw [if_pos h]

lemma aeConflict_of_lt (l : List LogEntry) (pli : Int)
    (h : pli < (l.length : Int)) :
    aeConflict l pli =
      ((conflictIndexScan l (termAtInt l pli) pli.toNat : Int),
       termAtInt l pli) := by
  unfold aeConflict
  rw [if_neg (by omega)]

/-- C5: on a consistency-check rejection the reply carries the fast-backup
hints.  If `prevLogIndex ≥ len(log)` then `conflictTerm = -1` (none) and
`conflictIndex = len(log)`; otherwise `conflictTerm = log[prevLogIndex].term`
and `conflictIndex` is the start of the contiguous run of entries whose term
equals `conflictTerm` that ends at `prevLogIndex` (the backward walk while
terms match), which for a log with non-decreasing terms is the first
(smallest) index whose term equals `conflictTerm`. -/
theorem appendEntries_fast_backup_hints (s : BrokerRM) (args : AEArgs)
    (hp : -1 ≤ args.prevLogIndex)
    (hterm : s.term ≤ args.term)
    (hfail : consistencyOK s.log args.prevLogIndex args.prevLogTerm = false) :
    (AppendEntries s args).2.1.success = false ∧
    ((s.log.length : Int) ≤ args.prevLogIndex →
      (AppendEntries s args).2.1.conflictTerm = -1 ∧
      (AppendEntries s args).2.1.conflictIndex = (s.log.length : Int)) ∧
    (args.prevLogIndex < (s.log.length : Int) →
      (AppendEntries s args).2.1.conflictTerm =
        termAtInt s.log args.prevLogIndex ∧
      0 ≤ (AppendEntries s args).2.1.conflictIndex ∧
      (AppendEntries s args).2.1.conflictIndex ≤ args.prevLogIndex ∧
      (∀ j : Nat, (AppendEntries s args).2.1.conflictIndex ≤ (j : Int) →
        (j : Int) ≤ args.prevLogIndex →
        termAtNat s.log j = (AppendEntries s args).2.1.conflictTerm) ∧
      ((AppendEntries s args).2.1.conflictIndex = 0 ∨
        termAtInt s.log ((AppendEntries s args).2.1.conflictIndex - 1) ≠
          (AppendEntries s args).2.1.conflictTerm) ∧
      ((∀ j k : Nat, j ≤ k → k < s.log.length →
          termAtNat s.log j ≤ termAtNat s.log k) →
        ∀ j : Nat, (j : Int) < (AppendEntries s args).2.1.conflictIndex →
          termAtNat s.log j ≠ (AppendEntries s args).2.1.conflictTerm)) := by
  have hne : args.prevLogIndex ≠ -1 := by
    intro h0
    have h1 : consistencyOK s.log args.prevLogIndex args.prevLogTerm = true :=
      (consistencyOK_iff _ _ _).mpr (Or.inl h0)
    rw [h1] at hfail
    exact Bool.true_eq_false.mp hfail
  have hp0 : 0 ≤ args.prevLogIndex := by omega
  rw [AE_of_ge_reject s args hterm hfail]
  refine ⟨rfl, ?_, ?_⟩
  · intro hlen
    show (aeConflict s.log args.prevLogIndex).2 = -1 ∧
      (aeConflict s.log args.prevLogIndex).1 = (s.log.length : Int)
    rw [aeConflict_of_ge s.log args.prevLogIndex hlen]
    exact ⟨rfl, rfl⟩
  · intro hlt
    have hrw := aeConflict_of_lt s.log args.prevLogIndex hlt
    show (aeConflict s.log args.prevLogIndex).2 =
        termAtInt s.log args.prevLogIndex ∧ _
    rw [hrw]
    dsimp only
    set p : Nat := args.prevLogIndex.toNat with hpdef
    have hpi : (p : Int) = args.prevLogIndex := Int.toNat_of_nonneg hp0
    have hplen : p < s.log.length := by omega
    set ct : Int := termAtInt s.log args.prevLogIndex with hct
    have hctp : termAtNat s.log p = ct := by
      rw [hct]
      rfl
    set sc : Nat := conflictIndexScan s.log ct p with hsc
    have hle : sc ≤ p := conflictIndexScan_le s.log ct p
    refine ⟨rfl, by positivity, by omega, ?_, ?_, ?_⟩
    · intro j h1 h2
      have hj : sc ≤ j := by exact_mod_cast h1
      rcases Nat.lt_or_ge j p with h3 | h3
      · exact conflictIndexScan_run s.log ct p j hj h3
      · have hjp : j = p := by omega
        rw [hjp]
        exact hctp
    · rcases Nat.eq_zero_or_pos sc with h1 | h1
      · left
        exact_mod_cast h1
      · rcases conflictIndexScan_boundary s.log ct p with h0 | h0
        · exact absurd (hsc.trans h0) (by omega)
        · right
          have he : ((sc : Int) - 1).toNat = sc - 1 := by omega
          rw [termAtInt, he]
          exact h0
    · intro hsorted j hj hct2
      have hjn : j < sc := by exact_mod_cast hj
      have hsc1 : 1 ≤ sc := by omega
      rcases conflictIndexScan_boundary s.log ct p with h0 | h0
      · exact absurd (hsc.trans h0) (by omega)
      · have hb1 : termAtNat s.log j ≤ termAtNat s.log (sc - 1) :=
          hsorted j (sc - 1) (by omega) (by omega)
        have hb2 : termAtNat s.log (sc - 1) ≤ termAtNat s.log p :=
          hsorted (sc - 1) p (by omega) hplen
        rw [hctp] at hb2
        rw [hct2] at hb1
        exact h0 (le_antisymm hb2 hb1)

/-- C5 witness: the spec's fast-backup scenario S4.  `follower2` has log
length 2; a consistent-term request with `prevLogIndex = 9` is rejected with
`conflictTerm = -1` and `conflictIndex = 2`. -/
theorem appendEntries_fast_backup_hints_witness :
    (AppendEntries follower2 ⟨1, 0, 9, 1, [], -1⟩).2.1.success = false ∧
    (AppendEntries follower2 ⟨1, 0, 9, 1, [], -1⟩).2.1.conflictTerm = -1 ∧
    (AppendEntries follower2 ⟨1, 0, 9, 1, [], -1⟩).2.1.conflictIndex = 2 := by
  have h := appendEntries_fast_backup_hints follower2 ⟨1, 0, 9, 1, [], -1⟩
    (by decide) (by decide) (by decide)
  exact ⟨h.1, (h.2.1 (by decide)).1, (h.2.1 (by decide)).2⟩

/-! Embedding of the broker's client-facing HTTP endpoint
(`BrokerServer.handleCRTDOperation`, `broker_server.go:112-151`). -/

/-- The JSON payload of a client edit (`CRDTMessage` in `broker_server.go`);
the `Value` payload (Go `interface{}`) is modelled as `String`. -/
structure CRDTMessage where
  type : String
  index : Int
  value : String
  replicaID : String
  opIndex : Int
  source : String
deriving DecidableEq

/-- The request body as the JSON decoder sees it: either it decodes to a
`CRDTMessage` or decoding fails. -/
inductive Body where
  | malformed
  | valid (msg : CRDTMessage)
deriving DecidableEq

/-- HTTP statuses written by `handleCRTDOperation`. -/
inductive HttpStatus where
  | methodNotAllowed
  | forbidden
  | badRequest
  | accepted
deriving DecidableEq

/-- The `/crdt` handler (`BrokerServer.handleCRTDOperation`,
`broker_server.go:112-151`): reject non-POST with 405; reject on a
non-Leader with 403 before the body is decoded; on a Leader decode the body
(400 on failure), then build
`crdtOp = "Type[%s] Index[%d] Value[%+v]"`, use the `OpIndex` as document
name, submit to the replication module and answer 202. -/
def handleCRTDOperation (s : BrokerRM) (method : String) (body : Body) :
    HttpStatus × BrokerRM :=
  if method ≠ "POST" then (HttpStatus.methodNotAllowed, s)
  else if s.state ≠ ServerState.Leader then (HttpStatus.forbidden, s)
  else
    match body with
    | Body.malformed => (HttpStatus.badRequest, s)
    | Body.valid m =>
      let crdtOp := "Type[" ++ m.type ++ "] Index[" ++ toString m.index ++
        "] Value[" ++ m.value ++ "]"
      let documentName := toString m.opIndex
      (HttpStatus.accepted, (Submit s documentName crdtOp).1)

/-- C10: `/crdt` request gating.  A non-POST method gets 405 before any
other check; a POST on a non-Leader gets 403 before the body is decoded, so
even a malformed payload on a non-leader yields 403 (never 400) and the
state — in particular the log — is untouched; only on a Leader is the body
examined, with 400 on a malformed payload without mutating the log, and 202
plus a `Submit` of the formatted operation on a well-formed one. -/
theorem handleCRTDOperation_gating (s : BrokerRM) (method : String)
    (body : Body) :
    (method ≠ "POST" →
      handleCRTDOperation s method body = (HttpStatus.methodNotAllowed, s)) ∧
    (s.state ≠ ServerState.Leader →
      handleCRTDOperation s "POST" body = (HttpStatus.forbidden, s)) ∧
    HttpStatus.forbidden ≠ HttpStatus.badRequest ∧
    (s.state = ServerState.Leader →
      handleCRTDOperation s "POST" Body.malformed = (HttpStatus.badRequest, s)) ∧
    (∀ m : CRDTMessage, s.state = ServerState.Leader →
      handleCRTDOperation s "POST" (Body.valid m) =
        (HttpStatus.accepted,
         (Submit s (toString m.opIndex)
           ("Type[" ++ m.type ++ "] Index[" ++ toString m.index ++
            "] Value[" ++ m.value ++ "]")).1)) := by
  refine ⟨fun h => ?_, fun h => ?_, by decide, fun h => ?_, fun m h => ?_⟩
  · simp [handleCRTDOperation, h]
  · simp [handleCRTDOperation, h]
  · simp [handleCRTDOperation, h]
  · simp [handleCRTDOperation, h]

/-- C10 witness: on a fresh Follower a malformed POST yields 403 (not 400)
with the state unchanged, a GET yields 405, and on a fresh Leader a
malformed POST yields 400 with the state unchanged. -/
theorem handleCRTDOperation_gating_witness :
    handleCRTDOperation (initRM 1 ServerState.Follower) "POST" Body.malformed =
      (HttpStatus.forbidden, initRM 1 ServerState.Follower) ∧
    handleCRTDOperation (initRM 1 ServerState.Follower) "GET" Body.malformed =
      (HttpStatus.methodNotAllowed, initRM 1 ServerState.Follower) ∧
    handleCRTDOperation (initRM 1 ServerState.Leader) "POST" Body.malformed =
      (HttpStatus.badRequest, initRM 1 ServerState.Leader) := by
  refine ⟨?_, ?_, ?_⟩
  · exact (handleCRTDOperation_gating (initRM 1 ServerState.Follower) "POST"
      Body.malformed).2.1 (by decide)
  · exact (handleCRTDOperation_gating (initRM 1 ServerState.Follower) "GET"
      Body.malformed).1 (by decide)
  · exact (handleCRTDOperation_gating (initRM 1 ServerState.Leader) "POST"
      Body.malformed).2.2.2.1 rfl

/-! Embedding of the application server (`appserver.go`). -/

/-- Messages read on a websocket session (`appserver.go`, `Message`); the
`Value` payload (Go `interface{}`) is modelled as `String`. -/
structure Message where
  type : String
  index : Int
  value : String
  replicaID : String
  opIndex : Int
  source : String
deriving DecidableEq

/-- Modelled from the spec: the CRDT engine (package `crdt`) is not part of
this repository ("deliberately out of scope ... treat as external
collaborators"), so it is an arbitrary replica state `σ` with
`LocalInsert`/`LocalDelete` returning the new state and the produced
operation `ω`. -/
structure CRDTModel (σ ω : Type) where
  localInsert : σ → Int → String → σ × ω
  localDelete : σ → Int → σ × ω

/-- The application-server state one message dispatch reads: the registered
sessions, the configured broker addresses and the CRDT replica. -/
structure AppState (σ : Type) where
  clients : List Nat
  brokers : List String
  crdt : σ

/-- Observable outcome of dispatching one websocket message: the POSTs
issued to brokers, the new CRDT state, and the per-session broadcasts. -/
structure DispatchResult (σ ω : Type) where
  posts : List (String × Message)
  crdt : σ
  broadcasts : List (Nat × ω)

/-- `AppServer.handleOperation` (`appserver.go:93-111`): apply
`LocalInsert(index, value)` or `LocalDelete(index)` to the local CRDT
according to `msg.Type` and broadcast the resulting operation to every
registered session; an unknown type does nothing. -/
def handleOperation {σ ω : Type} (m : CRDTModel σ ω) (st : AppState σ)
    (msg : Message) : σ × List (Nat × ω) :=
  if msg.type = "insert" then
    let r := m.localInsert st.crdt msg.index msg.value
    (r.1, st.clients.map (fun c => (c, r.2)))
  else if msg.type = "delete" then
    let r := m.localDelete st.crdt msg.index
    (r.1, st.clients.map (fun c => (c, r.2)))
  else
    (st.crdt, [])

/-- `AppServer.sendHTTPMessage` (`appserver.go:113-136`): POST the raw
message to `http://<broker>/crdt` for every configured broker. -/
def sendHTTPMessage {σ : Type} (st : AppState σ) (msg : Message) :
    List (String × Message) :=
  st.brokers.map (fun b => ("http://" ++ b ++ "/crdt", msg))

/-- The per-message switch of `AppServer.handleWebSocket`
(`appserver.go:79-89`): a `source == "client"` message is fanned out to the
brokers and handled locally; a `source == "broker"` message is only handled
locally; anything else is ignored. -/
def dispatchMessage {σ ω : Type} (m : CRDTModel σ ω) (st : AppState σ)
    (msg : Message) : DispatchResult σ ω :=
  if msg.source = "client" then
    let r := handleOperation m st msg
    ⟨sendHTTPMessage st msg, r.1, r.2⟩
  else if msg.source = "broker" then
    let r := handleOperation m st msg
    ⟨[], r.1, r.2⟩
  else
    ⟨[], st.crdt, []⟩

/-- C8: a `source == "client"` message is POSTed to every configured broker
and the operation is applied to the local CRDT (insert or delete) with the
resulting operation broadcast to every registered session; a
`source == "broker"` message is applied and broadcast identically but with
no fan-out to brokers. -/
theorem websocket_dispatch_fanout (σ ω : Type) (m : CRDTModel σ ω)
    (st : AppState σ) (msg : Message) :
    (msg.source = "client" →
      (dispatchMessage m st msg).posts =
        st.brokers.map (fun b => ("http://" ++ b ++ "/crdt", msg)) ∧
      (dispatchMessage m st msg).crdt = (handleOperation m st msg).1 ∧
      (dispatchMessage m st msg).broadcasts = (handleOperation m st msg).2) ∧
    (msg.source = "broker" →
      (dispatchMessage m st msg).posts = [] ∧
      (dispatchMessage m st msg).crdt = (handleOperation m st msg).1 ∧
      (dispatchMessage m st msg).broadcasts = (handleOperation m st msg).2) ∧
    (msg.type = "insert" →
      (handleOperation m st msg).1 =
        (m.localInsert st.crdt msg.index msg.value).1 ∧
      (handleOperation m st msg).2 =
        st.clients.map (fun c => (c, (m.localInsert st.crdt msg.index msg.value).2))) ∧
    (msg.type = "delete" →
      (handleOperation m st msg).1 = (m.localDelete st.crdt msg.index).1 ∧
      (handleOperation m st msg).2 =
        st.clients.map (fun c => (c, (m.localDelete st.crdt msg.index).2))) := by
  refine ⟨fun h => ?_, fun h => ?_, fun h => ?_, fun h => ?_⟩
  · simp [dispatchMessage, sendHTTPMessage, h]
  · simp [dispatchMessage, h]
  · simp [handleOperation, h]
  · simp [handleOperation, h]

/-- A concrete CRDT model instance for the C8 witness. -/
def natCRDT : CRDTModel Nat Int :=
  { localInsert := fun s i _ => (s + 1, i),
    localDelete := fun s i => (s + 1, -i) }

/-- A concrete application-server state for the C8 witness. -/
def appSt : AppState Nat := ⟨[7, 8], ["b0", "b1"], 0⟩

/-- C8 witness: a client-sourced insert is POSTed to both configured
brokers, while the same message tagged `source = "broker"` is not fanned
out; both are broadcast to the registered sessions. -/
theorem websocket_dispatch_fanout_witness :
    (dispatchMessage natCRDT appSt ⟨"insert", 3, "a", "r", 5, "client"⟩).posts =
      appSt.brokers.map
        (fun b => ("http://" ++ b ++ "/crdt", ⟨"insert", 3, "a", "r", 5, "client"⟩)) ∧
    (dispatchMessage natCRDT appSt ⟨"insert", 3, "a", "r", 5, "broker"⟩).posts = [] ∧
    (dispatchMessage natCRDT appSt ⟨"insert", 3, "a", "r", 5, "client"⟩).broadcasts =
      (handleOperation natCRDT appSt ⟨"insert", 3, "a", "r", 5, "client"⟩).2 := by
  refine ⟨?_, ?_, ?_⟩
  · exact ((websocket_dispatch_fanout Nat Int natCRDT appSt
      ⟨"insert", 3, "a", "r", 5, "client"⟩).1 rfl).1
  · exact ((websocket_dispatch_fanout Nat Int natCRDT appSt
      ⟨"insert", 3, "a", "r", 5, "broker"⟩).2.1 rfl).1
  · exact ((websocket_dispatch_fanout Nat Int natCRDT appSt
      ⟨"insert", 3, "a", "r", 5, "client"⟩).1 rfl).2.2

/-- One broker's observable answer to the `GET /logrequest` issued by
`requestCRDTLogs` (`appserver.go:139-204`): the request itself may fail, or
the broker replies Forbidden (follower), OK carrying the committed operation
sequence, or some other status. -/
inductive LogResponse where
  | unreachable
  | forbidden
  | ok (operations : List String)
  | other (code : Int)
deriving DecidableEq

/-- `AppServer.requestCRDTLogs` (`appserver.go:139-204`), folded over the
brokers' answers: request errors, Forbidden and other statuses skip to the
next broker; the first OK reads and logs the body and returns without error
— the block applying the operations to the CRDT is commented out, so the
applied-operations component is always `[]`; with no OK the call errors. -/
def requestCRDTLogs : List LogResponse → Bool × List String
  | [] => (false, [])
  | LogResponse.unreachable :: rest => requestCRDTLogs rest
  | LogResponse.forbidden :: rest => requestCRDTLogs rest
  | LogResponse.ok _ :: _ => (true, [])
  | LogResponse.other _ :: rest => requestCRDTLogs rest

/-- The reconciliation behaviour claim C9 describes, for comparison: skip
non-OK brokers, and on the first OK apply the returned committed operation
sequence in order to the local CRDT and succeed; error when no broker
answers OK. -/
def requestCRDTLogsClaimed : List LogResponse → Bool × List String
  | [] => (false, [])
  | LogResponse.unreachable :: rest => requestCRDTLogsClaimed rest
  | LogResponse.forbidden :: rest => requestCRDTLogsClaimed rest
  | LogResponse.ok operations :: _ => (true, operations)
  | LogResponse.other _ :: rest => requestCRDTLogsClaimed rest

/-- C9 counterexample: the code does not behave as claimed.  When the first
broker answers OK with the single committed operation `"op0"`, the call
succeeds but applies nothing to the local CRDT, while the claim requires
`["op0"]` to be applied. -/
theorem requestCRDTLogs_applies_nothing :
    ¬ (∀ rs : List LogResponse, requestCRDTLogs rs = requestCRDTLogsClaimed rs) := by
  intro h
  exact absurd (h [LogResponse.ok ["op0"]]) (by decide)

/-- C9 (amended): `requestCRDTLogs` tries each broker in turn, skipping
request failures, Forbidden and other non-OK statuses; it returns success
iff some broker answers OK, and it never applies any returned operation to
the local CRDT (the application step is left unimplemented). -/
theorem requestCRDTLogs_first_ok_no_apply (rs : List LogResponse) :
    requestCRDTLogs rs =
      (rs.any fun r => match r with
        | LogResponse.ok _ => true
        | _ => false, []) := by
  induction rs with
  | nil => rfl
  | cons r rest ih =>
    cases r <;> simp [requestCRDTLogs, ih]

end Clarity
